import Mathlib

/-!
# Verification of the jor1k `System` orchestration core (src/js/worker/system.js)

Shallow embedding of the execution scheduler (idle/wake state machine,
interrupt routing, instructions-per-second telemetry) and of the boot image
loader (format sniffing, decompression dispatch, device-tree patch,
endianness normalization) of `System`, together with theorems settling the
frozen claims about that code.

Modelling conventions:
* JS numbers used as machine integers become `Nat`/`Int` with explicit
  wrap/truncation where it matters (`Uint8Array` stores take the value
  mod 256).
* The drift-correction factor (a JS float) is modelled as a rational;
  the idle-wait formula `Math.floor(x + 0.5)` becomes the rational floor.
* External collaborators (CPU `Step`/`GetTicks`/`GetTimeToNextInterrupt`,
  the wall clock, `timer.Update`) are oracles packaged in an `Env` record,
  one per external entry-point invocation.
* Calls made to the CPU contract (raise/clear interrupt, `ProgressTime`,
  `Step`) are recorded in an event trace so that call ordering is provable.
-/

namespace Jor1k

/-- The three scheduler states: `SYSTEM_RUN = 0x1`, `SYSTEM_STOP = 0x2`,
`SYSTEM_HALT = 0x3` (halt is the idle state). -/
inductive SysStatus
  | RUN
  | STOP
  | HALT
deriving DecidableEq

/-- Calls made to the CPU contract, recorded in order of invocation. -/
inductive Event
  | raiseIntr (line core : Int)
  | clearIntr (line core : Int)
  | progressTime (delta : Nat)
  | step (budget : Nat)
deriving DecidableEq

/-- The mutable fields of the `Timer` collaborator that `System` reads:
`instructionsperloop` (the quantum budget), `timercyclesperinstruction`
(the hint passed to `cpu.Step`) and `correction` (the drift-correction
factor, a JS float modelled as a rational). -/
structure Timer where
  instructionsperloop : Nat
  timercyclesperinstruction : Nat
  correction : ℚ
deriving DecidableEq

/-- An armed deferred wake (`setTimeout` handle). `handle` is a fresh
identifier (models the timeout handle), `mswait` the wait in milliseconds
passed to `setTimeout`, and `delta` the captured cycle count that the
callback feeds to `cpu.ProgressTime`. -/
structure Wake where
  handle : Nat
  mswait : Int
  delta : Nat
deriving DecidableEq

/-- The scheduler-relevant state of a `System` instance:
`status`/`ips`/`idletime`/`idlemaxwait` are the fields of the same names,
`cpuClock` accumulates the cycles passed to `cpu.ProgressTime`, `wake` is
the armed deferred wake if any (`clearTimeout`/firing remove it),
`nextHandle` generates fresh timeout handles, `timer` mirrors the `Timer`
collaborator, and `trace` records the CPU-contract calls made so far. -/
structure SysState where
  status : SysStatus
  ips : Int
  idletime : Nat
  idlemaxwait : Nat
  cpuClock : Nat
  wake : Option Wake
  nextHandle : Nat
  timer : Timer
  trace : List Event
deriving DecidableEq

/-- Oracle for one external entry-point invocation: `now` is
`utils.GetMilliseconds()`, `stepsleft` the value returned by `cpu.Step`,
`timeToNext` the result of `cpu.GetTimeToNextInterrupt()` (`none` models
the `-1` sentinel), and `timerAfter` the `Timer` state right after
`timer.Update` runs in this quantum. -/
structure Env where
  now : Nat
  stepsleft : Nat
  timeToNext : Option Nat
  timerAfter : Timer
deriving DecidableEq

/-- Constant `this.ticksperms = 20000` (20 MHz), set in `Init` and never changed. -/
def ticksperms : Nat := 20000

/-- The idle wait in milliseconds computed by `HandleHalt`:
`Math.floor(delta / this.ticksperms / this.timer.correction + 0.5)`. -/
def mswaitOf (delta : Nat) (correction : ℚ) : Int :=
  ⌊(delta : ℚ) / (ticksperms : ℚ) / correction + 1 / 2⌋

/-- Model of `System.prototype.HandleHalt`: queries the time to the next interrupt;
on the `-1` sentinel returns unchanged; otherwise records `idlemaxwait`,
computes the millisecond wait and, unless it is `<= 1`, records the idle
entry time, moves to `HALT` and arms a deferred wake. -/
def handleHalt (env : Env) (s : SysState) : SysState :=
  match env.timeToNext with
  | none => s
  | some delta =>
    let s1 := { s with idlemaxwait := delta }
    let mswait := mswaitOf delta s1.timer.correction
    if mswait ≤ 1 then s1
    else { s1 with
      idletime := env.now
      status := SysStatus.HALT
      wake := some ⟨s1.nextHandle, mswait, delta⟩
      nextHandle := s1.nextHandle + 1 }

/-- Model of `System.prototype.MainLoop`: returns unless `status == SYSTEM_RUN`;
otherwise runs one CPU quantum of `timer.instructionsperloop`
instructions, accumulates `budget - stepsleft + 1` into `ips`
(the `totalsteps++` floor-of-progress increment), lets `timer.Update`
recompute the timer fields (oracle `env.timerAfter`), and enters idle
handling when the CPU reported idle (`stepsleft != 0`). -/
def mainLoop (env : Env) (s : SysState) : SysState :=
  if s.status = SysStatus.RUN then
    let budget := s.timer.instructionsperloop
    let totalsteps : Int := (budget : Int) - (env.stepsleft : Int) + 1
    let s1 := { s with
      ips := s.ips + totalsteps
      timer := env.timerAfter
      trace := s.trace ++ [Event.step budget] }
    if env.stepsleft ≠ 0 then handleHalt env s1 else s1
  else s

/-- The unconditional first action of `RaiseInterrupt`:
`this.cpu.RaiseInterrupt(line, -1)` (broadcast to all cores). -/
def forwardRaise (line : Int) (s : SysState) : SysState :=
  { s with trace := s.trace ++ [Event.raiseIntr line (-1)] }

/-- The early-wake block of `RaiseInterrupt` (executed when
`status == SYSTEM_HALT`): set `status = SYSTEM_RUN`, cancel the armed
timeout, advance the CPU clock by
`(GetMilliseconds() - idletime) * ticksperms` clamped to `idlemaxwait`. -/
def earlyWake (env : Env) (s : SysState) : SysState :=
  let delta0 := (env.now - s.idletime) * ticksperms
  let delta := if delta0 > s.idlemaxwait then s.idlemaxwait else delta0
  { s with
    status := SysStatus.RUN
    wake := none
    cpuClock := s.cpuClock + delta
    trace := s.trace ++ [Event.progressTime delta] }

/-- Model of `System.prototype.RaiseInterrupt`: forward the raise to the CPU
contract (all cores), then, if halted, perform the early wake and resume
`MainLoop` synchronously. -/
def raiseInterrupt (env : Env) (line : Int) (s : SysState) : SysState :=
  if (forwardRaise line s).status = SysStatus.HALT then
    mainLoop env (earlyWake env (forwardRaise line s))
  else forwardRaise line s

/-- Model of `System.prototype.ClearInterrupt`: forward only (all cores). -/
def clearInterrupt (line : Int) (s : SysState) : SysState :=
  { s with trace := s.trace ++ [Event.clearIntr line (-1)] }

/-- Model of `System.prototype.RaiseSoftInterrupt`: forward to one core only. -/
def raiseSoftInterrupt (line cpuid : Int) (s : SysState) : SysState :=
  { s with trace := s.trace ++ [Event.raiseIntr line cpuid] }

/-- Model of `System.prototype.ClearSoftInterrupt`: forward to one core only. -/
def clearSoftInterrupt (line cpuid : Int) (s : SysState) : SysState :=
  { s with trace := s.trace ++ [Event.clearIntr line cpuid] }

/-- Firing of the armed `setTimeout` callback from `HandleHalt`: only the
currently armed wake can fire (a cancelled handle never runs); the
callback re-checks `status == SYSTEM_HALT`, then resumes with
`cpu.ProgressTime(delta)` and `MainLoop`. -/
def fireWake (env : Env) (s : SysState) : SysState :=
  match s.wake with
  | none => s
  | some w =>
    let s1 := { s with wake := none }
    if s1.status = SysStatus.HALT then
      mainLoop env { s1 with
        status := SysStatus.RUN
        cpuClock := s1.cpuClock + w.delta
        trace := s1.trace ++ [Event.progressTime w.delta] }
    else s1

/-- Model of `System.prototype.Reset`: `status = SYSTEM_STOP`, devices reset
(external), `ips = 0`.  Note: it does not cancel an armed timeout. -/
def sysReset (s : SysState) : SysState :=
  { s with status := SysStatus.STOP, ips := 0 }

/-- The `GetIPS` message handler: sends the current `ips` value and then
sets `this.ips = 0`. -/
def getIPS (s : SysState) : Int × SysState :=
  (s.ips, { s with ips := 0 })

/-! ## Basic facts about the scheduler operations -/

theorem clamp_eq_min (a b : Nat) : (if a > b then b else a) = min a b := by
  split <;> omega

theorem mswaitOf_big : mswaitOf 20000000 1 = 1000 := by
  unfold mswaitOf ticksperms
  rw [Int.floor_eq_iff] ; norm_num

theorem mswaitOf_small : mswaitOf 20000 1 = 1 := by
  unfold mswaitOf ticksperms
  rw [Int.floor_eq_iff] ; norm_num

theorem handleHalt_trace (env : Env) (s : SysState) :
    (handleHalt env s).trace = s.trace := by
  unfold handleHalt
  cases h : env.timeToNext <;> simp only [h]
  split <;> rfl

theorem handleHalt_ips (env : Env) (s : SysState) :
    (handleHalt env s).ips = s.ips := by
  unfold handleHalt
  cases h : env.timeToNext <;> simp only [h]
  split <;> rfl

theorem handleHalt_cpuClock (env : Env) (s : SysState) :
    (handleHalt env s).cpuClock = s.cpuClock := by
  unfold handleHalt
  cases h : env.timeToNext <;> simp only [h]
  split <;> rfl

theorem handleHalt_timer (env : Env) (s : SysState) :
    (handleHalt env s).timer = s.timer := by
  unfold handleHalt
  cases h : env.timeToNext <;> simp only [h]
  split <;> rfl

theorem mainLoop_not_run (env : Env) {s : SysState}
    (h : s.status ≠ SysStatus.RUN) : mainLoop env s = s := by
  unfold mainLoop
  rw [if_neg h]

theorem mainLoop_trace_run (env : Env) {s : SysState}
    (h : s.status = SysStatus.RUN) :
    (mainLoop env s).trace
      = s.trace ++ [Event.step s.timer.instructionsperloop] := by
  unfold mainLoop
  rw [if_pos h]
  dsimp only
  split
  · rw [handleHalt_trace]
  · rfl

theorem mainLoop_ips_run (env : Env) {s : SysState}
    (h : s.status = SysStatus.RUN) :
    (mainLoop env s).ips
      = s.ips + ((s.timer.instructionsperloop : Int) - (env.stepsleft : Int) + 1) := by
  unfold mainLoop
  rw [if_pos h]
  dsimp only
  split
  · rw [handleHalt_ips]
  · rfl

theorem mainLoop_ips_le (env : Env) (s : SysState)
    (hc : env.stepsleft ≤ s.timer.instructionsperloop) :
    s.ips ≤ (mainLoop env s).ips := by
  by_cases h : s.status = SysStatus.RUN
  · rw [mainLoop_ips_run env h]
    have : (0 : Int) ≤ (s.timer.instructionsperloop : Int) - (env.stepsleft : Int) := by
      omega
    omega
  · rw [mainLoop_not_run env h]

theorem raiseInterrupt_ips_le (env : Env) (line : Int) (s : SysState)
    (hc : env.stepsleft ≤ s.timer.instructionsperloop) :
    s.ips ≤ (raiseInterrupt env line s).ips := by
  unfold raiseInterrupt
  split
  · exact mainLoop_ips_le env (earlyWake env (forwardRaise line s)) hc
  · exact le_refl _

theorem fireWake_ips_le (env : Env) (s : SysState)
    (hc : env.stepsleft ≤ s.timer.instructionsperloop) :
    s.ips ≤ (fireWake env s).ips := by
  unfold fireWake
  cases hw : s.wake
  · exact le_refl _
  · dsimp only
    split
    · exact mainLoop_ips_le env _ hc
    · exact le_refl _

/-! ## C1 — early wake on interrupt while idle -/

/-- C1: on `RaiseInterrupt` while the scheduler is halted (IDLE), the raise
is forwarded to the CPU contract first; then the armed deferred wake is
cancelled, the CPU clock is advanced by
`min((now - idletime) * ticksperms, idlemaxwait)` — never more than the
cycle budget recorded at idle entry — the status becomes `SYSTEM_RUN`, and
`MainLoop` (a run quantum) is resumed synchronously on that state, so the
trace gains the forwarded raise, the clamped `ProgressTime` and the quantum
`Step`, in that order. -/
theorem C1_raise_idle_early_wake (env : Env) (line : Int) (s : SysState)
    (hH : s.status = SysStatus.HALT) (ht : s.idletime ≤ env.now) :
    raiseInterrupt env line s
      = mainLoop env (earlyWake env (forwardRaise line s)) ∧
    (earlyWake env (forwardRaise line s)).status = SysStatus.RUN ∧
    (earlyWake env (forwardRaise line s)).wake = none ∧
    (earlyWake env (forwardRaise line s)).cpuClock
      = s.cpuClock + min ((env.now - s.idletime) * ticksperms) s.idlemaxwait ∧
    min ((env.now - s.idletime) * ticksperms) s.idlemaxwait ≤ s.idlemaxwait ∧
    (raiseInterrupt env line s).trace
      = s.trace ++ [Event.raiseIntr line (-1),
          Event.progressTime
            (min ((env.now - s.idletime) * ticksperms) s.idlemaxwait),
          Event.step s.timer.instructionsperloop] := by
  have hf : (forwardRaise line s).status = SysStatus.HALT := hH
  have h1 : raiseInterrupt env line s
      = mainLoop env (earlyWake env (forwardRaise line s)) := by
    unfold raiseInterrupt
    rw [if_pos hf]
  refine ⟨h1, rfl, rfl, ?_, ?_, ?_⟩
  · show s.cpuClock + (if (env.now - s.idletime) * ticksperms > s.idlemaxwait
        then s.idlemaxwait else (env.now - s.idletime) * ticksperms) = _
    rw [clamp_eq_min]
  · exact min_le_right _ _
  · rw [h1, mainLoop_trace_run env rfl]
    show (earlyWake env (forwardRaise line s)).trace
        ++ [Event.step s.timer.instructionsperloop] = _
    show (s.trace ++ [Event.raiseIntr line (-1)])
        ++ [Event.progressTime (if (env.now - s.idletime) * ticksperms > s.idlemaxwait
              then s.idlemaxwait else (env.now - s.idletime) * ticksperms)]
        ++ [Event.step s.timer.instructionsperloop] = _
    rw [clamp_eq_min]
    simp

/-- Concrete fixture for C1: a halted state with an armed wake. -/
def sC1 : SysState :=
  ⟨SysStatus.HALT, 0, 5, 100000, 0, some ⟨0, 5, 100000⟩, 1, ⟨10, 1, 1⟩, []⟩

/-- Concrete fixture for C1: oracle for the raise invocation. -/
def envC1 : Env := ⟨7, 0, none, ⟨10, 1, 1⟩⟩

/-- C1 witness: the theorem applied at a concrete halted state. -/
theorem C1_raise_idle_early_wake_witness :
    raiseInterrupt envC1 3 sC1
      = mainLoop envC1 (earlyWake envC1 (forwardRaise 3 sC1)) ∧
    (earlyWake envC1 (forwardRaise 3 sC1)).cpuClock
      = sC1.cpuClock + min ((envC1.now - sC1.idletime) * ticksperms) sC1.idlemaxwait :=
  ⟨(C1_raise_idle_early_wake envC1 3 sC1 rfl (by decide)).1,
   (C1_raise_idle_early_wake envC1 3 sC1 rfl (by decide)).2.2.2.1⟩

/-! ## C2 — wake cancellation and the post-return status -/

/-- One externally triggered transition of the scheduler state machine:
a scheduled `execute` quantum, an interrupt raise/clear (broadcast or
directed), the firing of the armed timeout, `Reset`, or the `GetIPS`
query. -/
inductive SysStep : SysState → SysState → Prop
  | main (env : Env) (s : SysState) : SysStep s (mainLoop env s)
  | raise (env : Env) (line : Int) (s : SysState) :
      SysStep s (raiseInterrupt env line s)
  | clear (line : Int) (s : SysState) : SysStep s (clearInterrupt line s)
  | raiseSoft (line cpuid : Int) (s : SysState) :
      SysStep s (raiseSoftInterrupt line cpuid s)
  | clearSoft (line cpuid : Int) (s : SysState) :
      SysStep s (clearSoftInterrupt line cpuid s)
  | fire (env : Env) (s : SysState) : SysStep s (fireWake env s)
  | reset (s : SysState) : SysStep s (sysReset s)
  | queryIPS (s : SysState) : SysStep s (getIPS s).2

/-- Reachability along externally triggered transitions. -/
def Reachable : SysState → SysState → Prop := Relation.ReflTransGen SysStep

/-- Handle freshness: the timeout-handle counter is at least `N` and any
armed wake has handle at least `N`. Since every newly armed wake draws its
handle from the counter, this is preserved by every transition. -/
def HandleFresh (N : Nat) (s : SysState) : Prop :=
  N ≤ s.nextHandle ∧ ∀ w : Wake, s.wake = some w → N ≤ w.handle

theorem handleFresh_handleHalt {N : Nat} (env : Env) {s : SysState}
    (h : HandleFresh N s) : HandleFresh N (handleHalt env s) := by
  unfold handleHalt
  cases hd : env.timeToNext
  · exact h
  · dsimp only
    split
    · exact ⟨h.1, fun w hw => h.2 w hw⟩
    · refine ⟨le_trans h.1 (Nat.le_succ _), ?_⟩
      intro w hw
      simp only [Option.some.injEq] at hw
      rw [← hw]
      exact h.1

theorem handleFresh_mainLoop {N : Nat} (env : Env) {s : SysState}
    (h : HandleFresh N s) : HandleFresh N (mainLoop env s) := by
  unfold mainLoop
  split
  · dsimp only
    split
    · exact handleFresh_handleHalt env ⟨h.1, fun w hw => h.2 w hw⟩
    · exact ⟨h.1, fun w hw => h.2 w hw⟩
  · exact h

theorem handleFresh_raiseInterrupt {N : Nat} (env : Env) (line : Int)
    {s : SysState} (h : HandleFresh N s) :
    HandleFresh N (raiseInterrupt env line s) := by
  unfold raiseInterrupt
  split
  · exact handleFresh_mainLoop env ⟨h.1, fun w hw => by cases hw⟩
  · exact ⟨h.1, fun w hw => h.2 w hw⟩

theorem handleFresh_fireWake {N : Nat} (env : Env) {s : SysState}
    (h : HandleFresh N s) : HandleFresh N (fireWake env s) := by
  unfold fireWake
  cases hw : s.wake
  · exact h
  · dsimp only
    split
    · exact handleFresh_mainLoop env ⟨h.1, fun w hw2 => by cases hw2⟩
    · exact ⟨h.1, fun w hw2 => by cases hw2⟩

theorem handleFresh_step {N : Nat} {s t : SysState}
    (h : HandleFresh N s) (hst : SysStep s t) : HandleFresh N t := by
  cases hst with
  | main env s => exact handleFresh_mainLoop env h
  | raise env line s => exact handleFresh_raiseInterrupt env line h
  | clear line s => exact ⟨h.1, fun w hw => h.2 w hw⟩
  | raiseSoft line cpuid s => exact ⟨h.1, fun w hw => h.2 w hw⟩
  | clearSoft line cpuid s => exact ⟨h.1, fun w hw => h.2 w hw⟩
  | fire env s => exact handleFresh_fireWake env h
  | reset s => exact ⟨h.1, fun w hw => h.2 w hw⟩
  | queryIPS s => exact ⟨h.1, fun w hw => h.2 w hw⟩

theorem handleFresh_reachable {N : Nat} {s t : SysState}
    (h : HandleFresh N s) (hr : Reachable s t) : HandleFresh N t := by
  induction hr with
  | refl => exact h
  | tail _ hst ih => exact handleFresh_step ih hst

/-- C2 (amended): a `RaiseInterrupt` that arrives while IDLE cancels the
previously armed deferred wake, which never fires afterward: no state
reachable from the post-raise state ever holds a wake with the cancelled
handle again (arming and firing a wake are tied to the handle, so the
cancelled wake can neither fire nor be re-armed). The early-wake sequence
sets the status to `SYSTEM_RUN` with no wake armed and then resumes the
quantum synchronously — but the resumed quantum may itself re-enter IDLE
with a fresh wake before the raise call returns, so `status = RUN`
immediately after the call returns does not hold in general (see the
counterexample). -/
theorem C2_raise_idle_wake_cancelled (env : Env) (line : Int) (s : SysState)
    (w : Wake) (hH : s.status = SysStatus.HALT) (hw : s.wake = some w)
    (hb : w.handle < s.nextHandle) :
    (earlyWake env (forwardRaise line s)).status = SysStatus.RUN ∧
    (earlyWake env (forwardRaise line s)).wake = none ∧
    raiseInterrupt env line s
      = mainLoop env (earlyWake env (forwardRaise line s)) ∧
    ∀ t, Reachable (raiseInterrupt env line s) t →
      ∀ w2 : Wake, t.wake = some w2 → w2.handle ≠ w.handle := by
  have hf : (forwardRaise line s).status = SysStatus.HALT := hH
  have h1 : raiseInterrupt env line s
      = mainLoop env (earlyWake env (forwardRaise line s)) := by
    unfold raiseInterrupt
    rw [if_pos hf]
  refine ⟨rfl, rfl, h1, ?_⟩
  intro t hr w2 hw2
  have h0 : HandleFresh (w.handle + 1) (earlyWake env (forwardRaise line s)) :=
    ⟨hb, fun w3 hw3 => by cases hw3⟩
  have ht : HandleFresh (w.handle + 1) t :=
    handleFresh_reachable (h1 ▸ handleFresh_mainLoop env h0) hr
  have := ht.2 w2 hw2
  omega

/-- Concrete fixture for C2: a halted state with an armed wake
(handle 0, 1500 ms, 30000000 cycles budgeted). -/
def sC2 : SysState :=
  ⟨SysStatus.HALT, 0, 0, 30000000, 0, some ⟨0, 1500, 30000000⟩, 1,
   ⟨10, 1, 1⟩, []⟩

/-- Concrete fixture for C2: on the resumed quantum the CPU goes idle again
at once (`stepsleft = 1`) with 20000000 cycles (1000 ms) to its next
timer interrupt. -/
def envC2 : Env := ⟨0, 1, some 20000000, ⟨10, 1, 1⟩⟩

/-- C2 counterexample: a Raise that arrives while IDLE whose synchronously
resumed quantum reports idle again leaves the scheduler back in
`SYSTEM_HALT` (with a fresh wake) by the time the Raise call returns, so
"state == RUNNING immediately after the Raise call returns" is false on
the code. -/
theorem C2_counterexample :
    sC2.status = SysStatus.HALT ∧
    (raiseInterrupt envC2 5 sC2).status = SysStatus.HALT ∧
    (raiseInterrupt envC2 5 sC2).status ≠ SysStatus.RUN := by
  have h : (raiseInterrupt envC2 5 sC2).status = SysStatus.HALT := by
    unfold raiseInterrupt
    rw [if_pos (show (forwardRaise 5 sC2).status = SysStatus.HALT from rfl)]
    unfold mainLoop
    rw [if_pos (show (earlyWake envC2 (forwardRaise 5 sC2)).status
          = SysStatus.RUN from rfl)]
    dsimp only
    rw [if_pos (by decide : envC2.stepsleft ≠ 0)]
    unfold handleHalt
    rw [show envC2.timeToNext = some 20000000 from rfl]
    dsimp only
    rw [if_neg (by rw [show mswaitOf 20000000 envC2.timerAfter.correction = 1000
          from mswaitOf_big]; decide)]
  exact ⟨rfl, h, by rw [h]; decide⟩

/-- C2 witness: the amended theorem applied at the concrete halted state. -/
theorem C2_raise_idle_wake_cancelled_witness :
    (earlyWake envC2 (forwardRaise 5 sC2)).status = SysStatus.RUN ∧
    (earlyWake envC2 (forwardRaise 5 sC2)).wake = none ∧
    raiseInterrupt envC2 5 sC2
      = mainLoop envC2 (earlyWake envC2 (forwardRaise 5 sC2)) :=
  let h := C2_raise_idle_wake_cancelled envC2 5 sC2 ⟨0, 1500, 30000000⟩
    rfl rfl (by decide)
  ⟨h.1, h.2.1, h.2.2.1⟩

/-! ## C4 — per-quantum accumulation into the ips counter -/

/-- C4 (amended): a run quantum accumulates exactly
`quantumBudget - unusedBudget + 1` into the instructions-per-second
counter (the code increments `totalsteps` by one unconditionally); under
the CPU contract `unusedBudget ≤ quantumBudget` this count is `≥ 1`, in
particular also when `unusedBudget = quantumBudget`. -/
theorem C4_mainLoop_ips_amended (env : Env) (s : SysState)
    (hR : s.status = SysStatus.RUN)
    (hc : env.stepsleft ≤ s.timer.instructionsperloop) :
    (mainLoop env s).ips
      = s.ips + ((s.timer.instructionsperloop : Int) - (env.stepsleft : Int) + 1) ∧
    1 ≤ (s.timer.instructionsperloop : Int) - (env.stepsleft : Int) + 1 := by
  refine ⟨mainLoop_ips_run env hR, ?_⟩
  omega

/-- Concrete fixture for C4: a running state with quantum budget 10. -/
def sC4 : SysState :=
  ⟨SysStatus.RUN, 0, 0, 0, 0, none, 0, ⟨10, 1, 1⟩, []⟩

/-- Concrete fixture for C4: the CPU leaves 3 of the 10 budgeted steps. -/
def envC4 : Env := ⟨0, 3, none, ⟨10, 1, 1⟩⟩

/-- C4 counterexample: with budget 10 and unused 3 the code accumulates
`10 - 3 + 1 = 8`, not `max (10 - 3) 1 = 7` as the claimed
"budget minus unused with a floor of 1" states. -/
theorem C4_counterexample :
    (mainLoop envC4 sC4).ips = 8 ∧ max ((10 : Int) - 3) 1 = 7 ∧ (8 : Int) ≠ 7 := by
  refine ⟨?_, by decide, by decide⟩
  rw [mainLoop_ips_run envC4 rfl]
  decide

/-- C4 witness: the amended theorem applied at the degenerate quantum where
the CPU consumed nothing (`unused = budget`), still accumulating 1. -/
theorem C4_mainLoop_ips_amended_witness :
    (mainLoop ⟨0, 10, none, ⟨10, 1, 1⟩⟩ sC4).ips
      = sC4.ips + ((sC4.timer.instructionsperloop : Int) - ((10 : Nat) : Int) + 1) ∧
    1 ≤ (sC4.timer.instructionsperloop : Int) - ((10 : Nat) : Int) + 1 :=
  C4_mainLoop_ips_amended ⟨0, 10, none, ⟨10, 1, 1⟩⟩ sC4 rfl (by decide)

/-! ## C5 — idle handling: degenerate cases skip IDLE, otherwise arm one wake -/

/-- C5: when the CPU reports idle, `HandleHalt` with the `-1` sentinel
("no pending timer"), or with a computed wait
`floor(delta / ticksperms / correction + 1/2) ≤ 1`, returns with status
still `SYSTEM_RUN` and no deferred wake armed; otherwise the status becomes
`SYSTEM_HALT` with exactly one deferred wake armed for that many
milliseconds (capturing `delta` for the later `ProgressTime`), recording
the idle entry time and the cycle budget `idlemaxwait = delta`. -/
theorem C5_handleHalt_spec (env : Env) (s : SysState)
    (hR : s.status = SysStatus.RUN) (hw : s.wake = none) :
    (env.timeToNext = none →
       (handleHalt env s).status = SysStatus.RUN ∧
       (handleHalt env s).wake = none) ∧
    (∀ delta : Nat, env.timeToNext = some delta →
       (mswaitOf delta s.timer.correction ≤ 1 →
          (handleHalt env s).status = SysStatus.RUN ∧
          (handleHalt env s).wake = none) ∧
       (1 < mswaitOf delta s.timer.correction →
          (handleHalt env s).status = SysStatus.HALT ∧
          (handleHalt env s).wake
            = some ⟨s.nextHandle, mswaitOf delta s.timer.correction, delta⟩ ∧
          (handleHalt env s).idlemaxwait = delta ∧
          (handleHalt env s).idletime = env.now)) := by
  constructor
  · intro h0
    unfold handleHalt
    rw [h0]
    exact ⟨hR, hw⟩
  · intro delta hd
    constructor
    · intro hle
      unfold handleHalt
      rw [hd]
      dsimp only
      rw [if_pos hle]
      exact ⟨hR, hw⟩
    · intro hgt
      unfold handleHalt
      rw [hd]
      dsimp only
      rw [if_neg (by omega)]
      exact ⟨rfl, rfl, rfl, rfl⟩

/-- Concrete fixture for C5: a running state with correction factor 1. -/
def sC5 : SysState :=
  ⟨SysStatus.RUN, 0, 0, 0, 0, none, 4, ⟨10, 1, 1⟩, []⟩

/-- Concrete fixture for C5: the CPU reports the no-pending-timer sentinel. -/
def envC5a : Env := ⟨0, 1, none, ⟨10, 1, 1⟩⟩

/-- Concrete fixture for C5: 20000000 cycles to the next interrupt, i.e. a
1000 ms wait at 20000 cycles per millisecond and correction 1. -/
def envC5b : Env := ⟨9, 1, some 20000000, ⟨10, 1, 1⟩⟩

/-- C5 witness: the theorem applied at the sentinel case and at an arming
case (1000 ms wait). -/
theorem C5_handleHalt_spec_witness :
    ((handleHalt envC5a sC5).status = SysStatus.RUN ∧
     (handleHalt envC5a sC5).wake = none) ∧
    ((handleHalt envC5b sC5).status = SysStatus.HALT ∧
     (handleHalt envC5b sC5).wake
       = some ⟨sC5.nextHandle, mswaitOf 20000000 sC5.timer.correction, 20000000⟩ ∧
     (handleHalt envC5b sC5).idlemaxwait = 20000000 ∧
     (handleHalt envC5b sC5).idletime = envC5b.now) := by
  constructor
  · exact (C5_handleHalt_spec envC5a sC5 rfl rfl).1 rfl
  · refine ((C5_handleHalt_spec envC5b sC5 rfl rfl).2 20000000 rfl).2 ?_
    rw [show mswaitOf 20000000 sC5.timer.correction = 1000 from mswaitOf_big]
    decide

/-! ## C9 — telemetry counter accumulation and reset -/

/-- C9 (amended): the instructions-per-second counter never decreases under
any scheduler operation (given the CPU contract `unused ≤ budget` for the
operations that run a quantum), is left unchanged by the pure forwarding
operations and by idle handling, and is zeroed only by the two explicit
external commands: the `GetIPS` query — which returns the exact accumulated
count and resets it to 0, so an immediate second call returns 0 — and
`Reset`. -/
theorem C9_ips_telemetry_amended (s : SysState) (env : Env) (line cpuid : Int)
    (hc : env.stepsleft ≤ s.timer.instructionsperloop) :
    (getIPS s).1 = s.ips ∧
    ((getIPS s).2).ips = 0 ∧
    (getIPS ((getIPS s).2)).1 = 0 ∧
    s.ips ≤ (mainLoop env s).ips ∧
    s.ips ≤ (raiseInterrupt env line s).ips ∧
    s.ips ≤ (fireWake env s).ips ∧
    (clearInterrupt line s).ips = s.ips ∧
    (raiseSoftInterrupt line cpuid s).ips = s.ips ∧
    (clearSoftInterrupt line cpuid s).ips = s.ips ∧
    (handleHalt env s).ips = s.ips ∧
    (sysReset s).ips = 0 :=
  ⟨rfl, rfl, rfl,
   mainLoop_ips_le env s hc,
   raiseInterrupt_ips_le env line s hc,
   fireWake_ips_le env s hc,
   rfl, rfl, rfl,
   handleHalt_ips env s,
   rfl⟩

/-- Concrete fixture for C9: a state with 5 accumulated instructions. -/
def sC9 : SysState :=
  ⟨SysStatus.RUN, 5, 0, 0, 0, none, 0, ⟨10, 1, 1⟩, []⟩

/-- C9 counterexample: the external `Reset` command — which is not the
GetIPS query (it returns nothing; the query would have returned 5) — also
zeroes a nonzero counter, so "reset to zero only by an explicit external
query" is false on the code. -/
theorem C9_counterexample :
    sC9.ips = 5 ∧ (sysReset sC9).ips = 0 ∧ (getIPS sC9).1 = 5 := by
  decide

/-- C9 witness: the amended theorem applied at a concrete state. -/
theorem C9_ips_telemetry_amended_witness :
    (getIPS sC9).1 = sC9.ips ∧
    ((getIPS sC9).2).ips = 0 ∧
    (getIPS ((getIPS sC9).2)).1 = 0 :=
  let h := C9_ips_telemetry_amended sC9 ⟨0, 3, none, ⟨10, 1, 1⟩⟩ 2 0 (by decide)
  ⟨h.1, h.2.1, h.2.2.1⟩

/-! ## C10 — directed per-core interrupt operations are pure forwarding -/

/-- C10: `RaiseSoftInterrupt` and `ClearSoftInterrupt` only forward to the
CPU contract (a single directed raise/clear event): for every scheduler
state, including `SYSTEM_HALT`, they leave the status, the armed deferred
wake, the CPU clock, the telemetry counter, the idle bookkeeping, the
timeout-handle counter and the timer unchanged — so only the broadcast
`RaiseInterrupt` path can trigger the early wake from idle. -/
theorem C10_soft_interrupt_frame (s : SysState) (line cpuid : Int) :
    (raiseSoftInterrupt line cpuid s).status = s.status ∧
    (raiseSoftInterrupt line cpuid s).wake = s.wake ∧
    (raiseSoftInterrupt line cpuid s).cpuClock = s.cpuClock ∧
    (raiseSoftInterrupt line cpuid s).ips = s.ips ∧
    (raiseSoftInterrupt line cpuid s).idletime = s.idletime ∧
    (raiseSoftInterrupt line cpuid s).idlemaxwait = s.idlemaxwait ∧
    (raiseSoftInterrupt line cpuid s).nextHandle = s.nextHandle ∧
    (raiseSoftInterrupt line cpuid s).timer = s.timer ∧
    (raiseSoftInterrupt line cpuid s).trace
      = s.trace ++ [Event.raiseIntr line cpuid] ∧
    (clearSoftInterrupt line cpuid s).status = s.status ∧
    (clearSoftInterrupt line cpuid s).wake = s.wake ∧
    (clearSoftInterrupt line cpuid s).cpuClock = s.cpuClock ∧
    (clearSoftInterrupt line cpuid s).ips = s.ips ∧
    (clearSoftInterrupt line cpuid s).idletime = s.idletime ∧
    (clearSoftInterrupt line cpuid s).idlemaxwait = s.idlemaxwait ∧
    (clearSoftInterrupt line cpuid s).nextHandle = s.nextHandle ∧
    (clearSoftInterrupt line cpuid s).timer = s.timer ∧
    (clearSoftInterrupt line cpuid s).trace
      = s.trace ++ [Event.clearIntr line cpuid] :=
  ⟨rfl, rfl, rfl, rfl, rfl, rfl, rfl, rfl, rfl,
   rfl, rfl, rfl, rfl, rfl, rfl, rfl, rfl, rfl⟩

/-! ## Boot image loader (`PatchKernel`, `OnKernelLoaded`)

Memory (`ram.uint8mem`) is modelled as a `List Nat` of byte values; an
out-of-range JS typed-array read yields `undefined` (which matches no byte
value) and is modelled by `none`; an out-of-range store is discarded, which
`List.set` does as well. -/

/-- The byte stored by `m[i+24] = (memorysize*0x100000)>>24` (a `Uint8Array`
store keeps the low 8 bits; for `memorysize < 2048` the JS 32-bit shift
agrees with this natural-number division). -/
def sizeByteHigh (S : Nat) : Nat := S * 0x100000 / 2 ^ 24 % 256

/-- The byte stored by `m[i+25] = (memorysize*0x100000)>>16` (low 8 bits of
the shifted value). -/
def sizeByteLow (S : Nat) : Nat := S * 0x100000 / 2 ^ 16 % 256

/-- The guard of the patch in `PatchKernel`: the 7-byte marker
`"memory\0"` at offset `i` together with the placeholder bytes
`{0x01, 0xF0, 0x00, 0x00}` at offsets `i+24 .. i+27`. -/
def dtbMatch (m : List Nat) (i : Nat) : Bool :=
  m[i]? == some 0x6d && m[i+1]? == some 0x65 && m[i+2]? == some 0x6d &&
  m[i+3]? == some 0x6f && m[i+4]? == some 0x72 && m[i+5]? == some 0x79 &&
  m[i+6]? == some 0x00 && m[i+24]? == some 0x01 && m[i+25]? == some 0xF0 &&
  m[i+26]? == some 0x00 && m[i+27]? == some 0x00

/-- The four byte stores performed when the marker matches at `i`. -/
def applyPatch (S : Nat) (m : List Nat) (i : Nat) : List Nat :=
  (((m.set (i+24) (sizeByteHigh S)).set (i+25) (sizeByteLow S)).set
    (i+26) 0x00).set (i+27) 0x00

/-- One iteration of the `PatchKernel` scan loop. -/
def patchStep (S : Nat) (m : List Nat) (i : Nat) : List Nat :=
  if dtbMatch m i then applyPatch S m i else m

/-- Model of `System.prototype.PatchKernel`: scan `i = 0 .. length-1` over memory,
patching the placeholder size field wherever the marker matches (`S` is
`this.memorysize`, the configured RAM size in MB at patch time). -/
def PatchKernel (S len : Nat) (m : List Nat) : List Nat :=
  (List.range len).foldl (patchStep S) m

theorem patchKernel_single (S len i0 : Nat) (m : List Nat)
    (hi : i0 < len) (hm : dtbMatch m i0 = true)
    (huniq : ∀ j, j < len → j ≠ i0 →
       dtbMatch m j = false ∧ dtbMatch (applyPatch S m i0) j = false) :
    PatchKernel S len m = applyPatch S m i0 := by
  suffices h : ∀ k, k ≤ len →
      (List.range k).foldl (patchStep S) m
        = if k ≤ i0 then m else applyPatch S m i0 by
    have hfin := h len (le_refl len)
    rw [if_neg (by omega)] at hfin
    exact hfin
  intro k
  induction k with
  | zero => intro h0; simp
  | succ k ih =>
    intro hk
    rw [List.range_succ, List.foldl_append, List.foldl_cons, List.foldl_nil,
      ih (by omega)]
    rcases Nat.lt_trichotomy k i0 with hlt | heq | hgt
    · rw [if_pos (show k ≤ i0 by omega), if_pos (show k + 1 ≤ i0 by omega)]
      unfold patchStep
      rw [(huniq k (by omega) (by omega)).1]
      simp
    · subst heq
      rw [if_pos (le_refl k), if_neg (by omega)]
      unfold patchStep
      rw [hm]
      simp
    · rw [if_neg (by omega), if_neg (by omega)]
      unfold patchStep
      rw [(huniq k (by omega) (by omega)).2]
      simp

theorem dtbMatch_bound {m : List Nat} {i : Nat} (hm : dtbMatch m i = true) :
    i + 27 < m.length := by
  unfold dtbMatch at hm
  simp only [Bool.and_eq_true, beq_iff_eq] at hm
  exact (List.getElem?_eq_some.mp hm.2).1

theorem applyPatch_length (S : Nat) (m : List Nat) (i : Nat) :
    (applyPatch S m i).length = m.length := by
  unfold applyPatch
  simp [List.length_set]

theorem applyPatch_getElem_other (S : Nat) (m : List Nat) (i j : Nat)
    (hj : j < i + 24 ∨ i + 27 < j) :
    (applyPatch S m i)[j]? = m[j]? := by
  unfold applyPatch
  rw [List.getElem?_set_ne (by omega), List.getElem?_set_ne (by omega),
    List.getElem?_set_ne (by omega), List.getElem?_set_ne (by omega)]

/-- C3: if memory holds the 7-byte marker with the placeholder bytes at
offsets +24..+27 at a unique position `i0` inside the scanned range, then
after `PatchKernel` with configured RAM size `S` MB the four placeholder
bytes are `(S*0x100000)>>24`, the low byte of `(S*0x100000)>>16`, `0x00`,
`0x00` (the `Uint8Array` stores keep the low 8 bits), all other bytes are
unchanged, and the 4-byte big-endian field now encodes exactly
`S*0x100000`, the configured size in bytes. Uniqueness is stated for the
scan both before and after the in-place patch, since the loop keeps
scanning the mutated memory. -/
theorem C3_patchKernel_size_field (S len i0 : Nat) (m : List Nat)
    (hS : S < 2048) (hi : i0 < len) (hm : dtbMatch m i0 = true)
    (huniq : ∀ j, j < len → j ≠ i0 →
       dtbMatch m j = false ∧ dtbMatch (applyPatch S m i0) j = false) :
    (PatchKernel S len m)[i0+24]? = some (sizeByteHigh S) ∧
    (PatchKernel S len m)[i0+25]? = some (sizeByteLow S) ∧
    (PatchKernel S len m)[i0+26]? = some 0x00 ∧
    (PatchKernel S len m)[i0+27]? = some 0x00 ∧
    sizeByteHigh S = S * 0x100000 / 2 ^ 24 ∧
    sizeByteHigh S * 2 ^ 24 + sizeByteLow S * 2 ^ 16 = S * 0x100000 ∧
    (∀ j, j < i0 + 24 ∨ i0 + 27 < j →
       (PatchKernel S len m)[j]? = m[j]?) := by
  have hb : i0 + 27 < m.length := dtbMatch_bound hm
  rw [patchKernel_single S len i0 m hi hm huniq]
  unfold applyPatch
  refine ⟨?_, ?_, ?_, ?_, ?_, ?_, ?_⟩
  · rw [List.getElem?_set_ne (by omega), List.getElem?_set_ne (by omega),
      List.getElem?_set_ne (by omega)]
    exact List.getElem?_set_eq_of_lt _ (by omega)
  · rw [List.getElem?_set_ne (by omega), List.getElem?_set_ne (by omega)]
    exact List.getElem?_set_eq_of_lt _ (by simp only [List.length_set]; omega)
  · rw [List.getElem?_set_ne (by omega)]
    exact List.getElem?_set_eq_of_lt _ (by simp only [List.length_set]; omega)
  · exact List.getElem?_set_eq_of_lt _ (by simp only [List.length_set]; omega)
  · unfold sizeByteHigh
    omega
  · unfold sizeByteHigh sizeByteLow
    omega
  · intro j hj
    exact applyPatch_getElem_other S m i0 j hj

/-- Concrete fixture for C3: 32 bytes with the marker at offset 2 and the
placeholder at offsets 26..29. -/
def mC3 : List Nat :=
  [0, 0, 0x6d, 0x65, 0x6d, 0x6f, 0x72, 0x79, 0x00, 0, 0, 0, 0, 0, 0, 0,
   0, 0, 0, 0, 0, 0, 0, 0, 0, 0, 0x01, 0xF0, 0x00, 0x00, 0, 0]

/-- C3 witness: the theorem applied to the concrete buffer with a
configured size of 32 MB (`32*0x100000 = 0x02000000`, so the field becomes
`02 00 00 00`). -/
theorem C3_patchKernel_size_field_witness :
    (PatchKernel 32 32 mC3)[26]? = some (sizeByteHigh 32) ∧
    (PatchKernel 32 32 mC3)[27]? = some (sizeByteLow 32) ∧
    (PatchKernel 32 32 mC3)[28]? = some 0x00 ∧
    (PatchKernel 32 32 mC3)[29]? = some 0x00 ∧
    sizeByteHigh 32 * 2 ^ 24 + sizeByteLow 32 * 2 ^ 16 = 32 * 0x100000 :=
  let h := C3_patchKernel_size_field 32 32 2 mC3 (by decide) (by decide)
    (by decide) (by decide)
  ⟨h.1, h.2.1, h.2.2.1, h.2.2.2.1, h.2.2.2.2.2.1⟩

/-! ## Format sniffing and `OnKernelLoaded` dispatch -/

/-- Modelled from the spec: `elf.IsELF` lives in elf.js, which is not under
src/; the spec's "executable-and-linkable format marker" is the ELF magic
`0x7F 'E' 'L' 'F'` in the buffer's leading bytes. -/
def isELFmagic (b : List Nat) : Bool :=
  b[0]? == some 0x7F && b[1]? == some 0x45 &&
  b[2]? == some 0x4C && b[3]? == some 0x46

/-- Modelled from the spec: `bzip2.IsBZIP2` lives in bzip2.js, not under
src/; the spec's "block-compression format marker" is the bzip2 magic
`"BZh"` in the buffer's leading bytes. -/
def isBZIP2magic (b : List Nat) : Bool :=
  b[0]? == some 0x42 && b[1]? == some 0x5A && b[2]? == some 0x68

/-- The three boot-image formats distinguished by `OnKernelLoaded`. -/
inductive Format
  | elfFmt
  | bzipFmt
  | rawFmt
deriving DecidableEq

/-- The format decision made by the `if`/`else if`/`else` chain of
`OnKernelLoaded` (ELF is tested first). -/
def sniff (b : List Nat) : Format :=
  if isELFmagic b then Format.elfFmt
  else if isBZIP2magic b then Format.bzipFmt
  else Format.rawFmt

/-- External collaborators of the boot loader, abstracted: the bzip2
decompressed byte stream, the ELF segment extractor (arguments: the buffer
handed to `elf.Extract` and the current memory), the `ram.Little2Big`
in-place word swap, the CPU's `littleendian` flag and the configured
`memorysize` in MB. -/
structure LoaderParams where
  decompress : List Nat → List Nat
  extract : List Nat → List Nat → List Nat
  little2big : List Nat → Nat → List Nat
  littleendian : Bool
  memorysize : Nat

/-- The sequential byte stores `ram[k] = out[0], ram[k+1] = out[1], ...`
performed by the decompression callback / the raw copy loop
(an out-of-range store is discarded, as in JS). -/
def writeFrom (ram : List Nat) (k : Nat) : List Nat → List Nat
  | [] => ram
  | x :: xs => writeFrom (ram.set k x) (k + 1) xs

/-- Outcome of the materialization part of `OnKernelLoaded`: the memory
contents, the tracked `length` variable, and the buffers passed to
`elf.Extract`, in call order. -/
structure LoadResult where
  mem : List Nat
  len : Nat
  extracted : List (List Nat)
deriving DecidableEq

/-- The sniff-and-materialize part of `System.prototype.OnKernelLoaded`:
ELF buffers go to `elf.Extract` directly; bzip2 buffers are stream-
decompressed into memory from address 0 with the `length` counter
incremented per byte, then the decompressed memory is re-sniffed for ELF
and, if it matches, a copy `temp` of the first `length` decompressed bytes
is handed to `elf.Extract`; anything else is copied verbatim into memory
from address 0. -/
def materialize (P : LoaderParams) (buffer ram0 : List Nat) : LoadResult :=
  match sniff buffer with
  | Format.elfFmt => ⟨P.extract buffer ram0, buffer.length, [buffer]⟩
  | Format.bzipFmt =>
    let out := P.decompress buffer
    let mem1 := writeFrom ram0 0 out
    if isELFmagic mem1 then
      ⟨P.extract (mem1.take out.length) mem1, out.length,
       [mem1.take out.length]⟩
    else ⟨mem1, out.length, []⟩
  | Format.rawFmt => ⟨writeFrom ram0 0 buffer, buffer.length, []⟩

/-- The endianness step of `OnKernelLoaded`: only when
`cpu.littleendian == false`, run `PatchKernel(length)` and then
`ram.Little2Big(length)` over the materialized memory. -/
def endianFinish (P : LoaderParams) (r : LoadResult) : LoadResult :=
  if P.littleendian = false then
    { r with mem := P.little2big (PatchKernel P.memorysize r.len r.mem) r.len }
  else r

/-- Model of `System.prototype.OnKernelLoaded`: materialize the image, then apply
the endianness normalization. -/
def onKernelLoaded (P : LoaderParams) (buffer ram0 : List Nat) : LoadResult :=
  endianFinish P (materialize P buffer ram0)

theorem writeFrom_length (out : List Nat) :
    ∀ (ram : List Nat) (k : Nat), (writeFrom ram k out).length = ram.length := by
  induction out with
  | nil => intro ram k; rfl
  | cons x xs ih =>
    intro ram k
    show (writeFrom (ram.set k x) (k + 1) xs).length = ram.length
    rw [ih, List.length_set]

theorem getElem?_writeFrom_lt (out : List Nat) :
    ∀ (ram : List Nat) (k j : Nat), j < k →
      (writeFrom ram k out)[j]? = ram[j]? := by
  induction out with
  | nil => intro ram k j _; rfl
  | cons x xs ih =>
    intro ram k j hj
    show (writeFrom (ram.set k x) (k + 1) xs)[j]? = ram[j]?
    rw [ih _ _ _ (by omega), List.getElem?_set_ne (by omega)]

theorem getElem?_writeFrom (out : List Nat) :
    ∀ (ram : List Nat) (k j : Nat), j < out.length →
      k + out.length ≤ ram.length →
      (writeFrom ram k out)[k + j]? = out[j]? := by
  induction out with
  | nil => intro ram k j hj _; exact absurd hj (by simp)
  | cons x xs ih =>
    intro ram k j hj hlen
    cases j with
    | zero =>
      show (writeFrom (ram.set k x) (k + 1) xs)[k + 0]? = (x :: xs)[0]?
      rw [getElem?_writeFrom_lt xs _ _ _ (show k + 0 < k + 1 by omega)]
      simp only [Nat.add_zero, List.getElem?_cons_zero]
      exact List.getElem?_set_eq_of_lt x (show k < ram.length by
        simp only [List.length_cons] at hlen; omega)
    | succ j =>
      show (writeFrom (ram.set k x) (k + 1) xs)[k + (j + 1)]? = (x :: xs)[j + 1]?
      rw [show k + (j + 1) = (k + 1) + j by omega,
        ih _ _ _ (by simp only [List.length_cons] at hj; omega)
          (by rw [List.length_set]; simp only [List.length_cons] at hlen; omega),
        List.getElem?_cons_succ]

theorem take_writeFrom (out ram : List Nat) (h : out.length ≤ ram.length) :
    (writeFrom ram 0 out).take out.length = out := by
  apply List.ext_getElem?
  intro i
  by_cases hi : i < out.length
  · rw [List.getElem?_take, if_pos hi]
    have := getElem?_writeFrom out ram 0 i hi (by omega)
    rw [Nat.zero_add] at this
    exact this
  · rw [List.getElem?_take, if_neg hi, List.getElem?_eq_none (by omega)]

theorem magic_disjoint {b : List Nat} (h : isBZIP2magic b = true) :
    isELFmagic b = false := by
  cases hE : isELFmagic b with
  | false => rfl
  | true =>
    exfalso
    unfold isELFmagic at hE
    unfold isBZIP2magic at h
    simp only [Bool.and_eq_true, beq_iff_eq] at hE h
    have h1 := hE.1.1.1
    have h2 := h.1.1
    rw [h1] at h2
    simp at h2

theorem sniff_bzip {b : List Nat} (h : isBZIP2magic b = true) :
    sniff b = Format.bzipFmt := by
  unfold sniff
  rw [if_neg (by simp [magic_disjoint h]), if_pos h]

/-- C6: for a buffer matching the compressed-format signature (which is
disjoint from the ELF signature tested first), decompression writes the
output bytes into memory starting at address 0 and the tracked `length`
equals the number of bytes written (while they fit in memory, the code's
fidelity domain); if the decompressed memory then sniffs as ELF,
extraction is re-applied to a copy of the first `length` decompressed
bytes — exactly the decompressed stream, not the original compressed
buffer — and otherwise no extraction happens at all. -/
theorem C6_bzip2_decompress_load (P : LoaderParams) (buffer ram0 : List Nat)
    (hB : isBZIP2magic buffer = true)
    (hout : (P.decompress buffer).length ≤ ram0.length) :
    (materialize P buffer ram0).len = (P.decompress buffer).length ∧
    (writeFrom ram0 0 (P.decompress buffer)).take (P.decompress buffer).length
      = P.decompress buffer ∧
    (isELFmagic (writeFrom ram0 0 (P.decompress buffer)) = true →
       (materialize P buffer ram0).extracted = [P.decompress buffer] ∧
       (materialize P buffer ram0).mem
         = P.extract (P.decompress buffer)
             (writeFrom ram0 0 (P.decompress buffer))) ∧
    (isELFmagic (writeFrom ram0 0 (P.decompress buffer)) = false →
       (materialize P buffer ram0).extracted = [] ∧
       (materialize P buffer ram0).mem
         = writeFrom ram0 0 (P.decompress buffer)) := by
  have htake := take_writeFrom (P.decompress buffer) ram0 hout
  unfold materialize
  rw [sniff_bzip hB]
  dsimp only
  refine ⟨?_, htake, ?_, ?_⟩
  · split <;> rfl
  · intro hE
    rw [if_pos hE]
    exact ⟨by rw [htake], by rw [htake]⟩
  · intro hE
    rw [if_neg (by simp [hE])]
    exact ⟨rfl, rfl⟩

/-- Concrete fixture for C6: loader collaborators whose decompressed
stream is itself an ELF image. -/
def PC6 : LoaderParams :=
  ⟨fun _ => [0x7F, 0x45, 0x4C, 0x46], fun buf mem => buf ++ mem,
   fun m _ => m, false, 32⟩

/-- Concrete fixture for C6: a bzip2-signature buffer. -/
def bufC6 : List Nat := [0x42, 0x5A, 0x68, 1, 2]

/-- Concrete fixture for C6: an 8-byte memory. -/
def ramC6 : List Nat := [9, 9, 9, 9, 9, 9, 9, 9]

/-- C6 witness: the theorem applied where the decompressed content
re-sniffs as ELF, so extraction receives the decompressed bytes. -/
theorem C6_bzip2_decompress_load_witness :
    (materialize PC6 bufC6 ramC6).len = (PC6.decompress bufC6).length ∧
    (materialize PC6 bufC6 ramC6).extracted = [PC6.decompress bufC6] ∧
    (materialize PC6 bufC6 ramC6).mem
      = PC6.extract (PC6.decompress bufC6)
          (writeFrom ramC6 0 (PC6.decompress bufC6)) :=
  let h := C6_bzip2_decompress_load PC6 bufC6 ramC6 (by decide) (by decide)
  let h2 := h.2.2.1 (by decide)
  ⟨h.1, h2.1, h2.2⟩

/-- C7: format detection has exactly the three outcomes
{executable-format, compressed-format, raw-flat-binary}; a buffer matching
neither magic is never an error — its `length` bytes are copied verbatim
into memory starting at address 0 (here while they fit in memory, the
code's fidelity domain), with no extraction call. -/
theorem C7_sniff_dispatch (P : LoaderParams) (buffer ram0 : List Nat)
    (hlen : buffer.length ≤ ram0.length) :
    (sniff buffer = Format.elfFmt ∨ sniff buffer = Format.bzipFmt ∨
       sniff buffer = Format.rawFmt) ∧
    (sniff buffer = Format.rawFmt →
       (materialize P buffer ram0).mem.take buffer.length = buffer ∧
       (materialize P buffer ram0).len = buffer.length ∧
       (materialize P buffer ram0).extracted = []) := by
  constructor
  · cases h : sniff buffer
    · exact Or.inl rfl
    · exact Or.inr (Or.inl rfl)
    · exact Or.inr (Or.inr rfl)
  · intro h
    unfold materialize
    rw [h]
    exact ⟨take_writeFrom buffer ram0 hlen, rfl, rfl⟩

/-- Concrete fixture for C7: loader collaborators (unused on the raw
path). -/
def PC7 : LoaderParams :=
  ⟨fun b => b, fun buf mem => buf ++ mem, fun m _ => m, true, 16⟩

/-- Concrete fixture for C7: a buffer matching neither magic. -/
def bufC7 : List Nat := [1, 2, 3]

/-- Concrete fixture for C7: a 4-byte memory. -/
def ramC7 : List Nat := [0, 0, 0, 0]

/-- C7 witness: the theorem applied at an unrecognized buffer, which is
copied verbatim. -/
theorem C7_sniff_dispatch_witness :
    (materialize PC7 bufC7 ramC7).mem.take bufC7.length = bufC7 ∧
    (materialize PC7 bufC7 ramC7).len = bufC7.length ∧
    (materialize PC7 bufC7 ramC7).extracted = [] :=
  (C7_sniff_dispatch PC7 bufC7 ramC7 (by decide)).2 (by decide)

/-- C8: the boot loader applies the configuration patch and then the
in-place word swap over the first `length` bytes of memory exactly when
`cpu.littleendian == false`, in that order (`PatchKernel` runs on the
materialized memory, `Little2Big` on the patched memory); for
little-endian variants both steps are skipped and the result is exactly
the materialized image. -/
theorem C8_endianness_dispatch (P : LoaderParams) (buffer ram0 : List Nat) :
    (P.littleendian = false →
       onKernelLoaded P buffer ram0
         = { materialize P buffer ram0 with
             mem := P.little2big
               (PatchKernel P.memorysize (materialize P buffer ram0).len
                 (materialize P buffer ram0).mem)
               (materialize P buffer ram0).len }) ∧
    (P.littleendian = true →
       onKernelLoaded P buffer ram0 = materialize P buffer ram0) := by
  constructor
  · intro h
    unfold onKernelLoaded endianFinish
    rw [if_pos h]
  · intro h
    unfold onKernelLoaded endianFinish
    rw [if_neg (by simp [h])]

/-- Concrete fixture for C8: a big-endian CPU variant
(`littleendian = false`) with a reversing word-swap stand-in. -/
def PC8 : LoaderParams :=
  ⟨fun b => b, fun buf mem => buf ++ mem, fun m _ => m.reverse, false, 32⟩

/-- Concrete fixture for C8: a raw two-byte image. -/
def bufC8 : List Nat := [5, 6]

/-- Concrete fixture for C8: a 3-byte memory. -/
def ramC8 : List Nat := [0, 0, 0]

/-- C8 witness: the theorem applied on the big-endian path. -/
theorem C8_endianness_dispatch_witness :
    onKernelLoaded PC8 bufC8 ramC8
      = { materialize PC8 bufC8 ramC8 with
          mem := PC8.little2big
            (PatchKernel PC8.memorysize (materialize PC8 bufC8 ramC8).len
              (materialize PC8 bufC8 ramC8).mem)
            (materialize PC8 bufC8 ramC8).len } :=
  (C8_endianness_dispatch PC8 bufC8 ramC8).1 rfl

end Jor1k
